import Mathlib

/-!
Verification of the Smart_plug energy dashboard (src/Energy.py).

The program is a single-file dashboard.  Its logic breaks into:

* a data loader (function load_data, Energy.py lines 56-85): read a CSV
  file into a table, coerce the Timestamp column to date-times dropping
  rows that fail to parse, coerce the four numeric columns cell-wise to
  numbers (failures become missing values), drop duplicate timestamps
  keeping the last occurrence, sort ascending by timestamp and reset the
  index; a missing file yields an empty table with the fixed six-column
  schema, and any other failure is caught, reported, and also yields the
  empty schema table;
* a derived-metrics block (lines 164-242): with fewer than two rows an
  informational waiting message is shown, otherwise the latest snapshot,
  the deltas between the last two rows, the column maxima of power and
  energy, and the estimated cost (max energy times unit price) are shown;
* a device-control stub (control_device_api, lines 29-52, and
  handle_toggle, lines 130-141): the API call stores the requested state
  string, records the call time, and always returns True; the toggle
  handler flips ON to OFF and anything else to ON;
* a cache decorator on the loader (line 56): st.cache_data with the
  fixed lifetime ttl=5, keyed by the function argument refresh_interval.

The embedding below models timestamps as natural numbers (the image of a
successful date-time parse), numeric cells as Option Rat (None is NaN),
and the two external parsers pd.to_datetime / pd.to_numeric as function
parameters, since their grammars live outside this repository.  Time is
a natural-number clock passed to the stateful operations.
-/

/-- One raw CSV record as read_csv delivers it: all cells are text. -/
structure RawRow where
  ts : String
  voltage : String
  current : String
  power : String
  energy : String
  status : String
deriving DecidableEq, Repr

/-- One processed Reading row: idx is the pandas row index, ts the parsed
timestamp, and the four numeric cells are None when coercion failed. -/
structure Row where
  idx : Nat
  ts : Nat
  voltage : Option Rat
  current : Option Rat
  power : Option Rat
  energy : Option Rat
  status : String
deriving DecidableEq, Repr

/-- A row with its index forgotten, for comparing row data across the
re-indexing step. -/
def Row.stripIdx (r : Row) : Row :=
  { r with idx := 0 }

/-- The fixed column schema of the table (Energy.py lines 61-63). -/
def schemaCols : List String :=
  ["Timestamp", "Voltage (V)", "Current (A)", "Power (W)", "Energy (kWh)", "Status"]

/-- The in-memory table: its column names and its rows. -/
structure Table where
  columns : List String
  rows : List Row
deriving DecidableEq, Repr

/-- The empty DataFrame with the defined schema (Energy.py lines 61-63
and 83-85). -/
def emptySchemaTable : Table :=
  ⟨schemaCols, []⟩

/-- The state of the CSV file as the loader can observe it: absent, or
present with either a parseable list of records or a whole-file read
failure (malformed structure, missing columns, ...). -/
inductive FileState where
  | absent
  | present (content : Except String (List RawRow))

/-- Timestamp coercion followed by dropping unparseable rows followed by
cell-wise numeric coercion (Energy.py lines 69-75), with i the pandas
index of the first row.  pT models pd.to_datetime with coercion to NaT
(None), pN models pd.to_numeric with coercion to NaN (None). -/
def coerceFrom (pT : String → Option Nat) (pN : String → Option Rat)
    (i : Nat) : List RawRow → List Row
  | [] => []
  | r :: rs =>
    match pT r.ts with
    | none => coerceFrom pT pN (i + 1) rs
    | some t =>
      ⟨i, t, pN r.voltage, pN r.current, pN r.power, pN r.energy, r.status⟩
        :: coerceFrom pT pN (i + 1) rs

/-- The coercion pipeline applied to the whole file, indices from 0. -/
def parseAndCoerce (pT : String → Option Nat) (pN : String → Option Rat)
    (raws : List RawRow) : List Row :=
  coerceFrom pT pN 0 raws

/-- drop_duplicates on the Timestamp column with keep set to last
(Energy.py line 78): a row survives exactly when no later row carries
the same timestamp. -/
def dropDupKeepLast : List Row → List Row
  | [] => []
  | r :: rs =>
    if rs.any (fun x => x.ts == r.ts) then dropDupKeepLast rs
    else r :: dropDupKeepLast rs

/-- The ordering used by sort_values on the Timestamp column. -/
def rowLe (a b : Row) : Prop :=
  a.ts ≤ b.ts

instance : DecidableRel rowLe := fun a b => Nat.decLe a.ts b.ts

instance : IsTotal Row rowLe := ⟨fun a b => Nat.le_total a.ts b.ts⟩

instance : IsTrans Row rowLe := ⟨fun _ _ _ => Nat.le_trans⟩

/-- sort_values on the Timestamp column (Energy.py line 78), modelled as
a comparison sort on the timestamp key. -/
def sortByTs (l : List Row) : List Row :=
  l.insertionSort rowLe

/-- reset_index with drop set to true (Energy.py line 78): rows keep
their order and data but receive fresh consecutive indices from i. -/
def resetIndexFrom (i : Nat) : List Row → List Row
  | [] => []
  | r :: rs => { r with idx := i } :: resetIndexFrom (i + 1) rs

/-- The full row pipeline of load_data on a successfully read file:
coerce, drop bad timestamps, dedup keeping last, sort, re-index. -/
def processRows (pT : String → Option Nat) (pN : String → Option Rat)
    (raws : List RawRow) : List Row :=
  resetIndexFrom 0 (sortByTs (dropDupKeepLast (parseAndCoerce pT pN raws)))

/-- load_data (Energy.py lines 57-85).  The Bool records whether
st.error was called (a user-visible error was surfaced). -/
def load_data (pT : String → Option Nat) (pN : String → Option Rat)
    (file : FileState) : Bool × Table :=
  match file with
  | .absent => (false, emptySchemaTable)
  | .present (.error _) => (true, emptySchemaTable)
  | .present (.ok raws) => (false, ⟨schemaCols, processRows pT pN raws⟩)

/-- The process-local session state (Energy.py lines 22-25). -/
structure Session where
  device_status : String
  last_api_call : Nat
deriving DecidableEq, Repr

/-- control_device_api (Energy.py lines 29-52): store the requested
state string, record the call time, return True.  The clock value now
models time.time at the moment of the call. -/
def control_device_api (s : Session) (new_state : String) (now : Nat) :
    Bool × Session :=
  let s1 := { s with device_status := new_state }
  let s2 := { s1 with last_api_call := now }
  (true, s2)

/-- handle_toggle (Energy.py lines 130-141): compute the target state
from the current one, call the API, and toast success or failure.  The
returned Bool is true exactly when the success toast is shown. -/
def handle_toggle (s : Session) (now : Nat) : Session × Bool :=
  let is_on := s.device_status == "ON"
  let new_state := if is_on then "OFF" else "ON"
  let r := control_device_api s new_state now
  (r.2, r.1)

/-- NaN-propagating subtraction of two series cells, as pandas performs
it for the delta computations (Energy.py lines 176-177). -/
def optSub (a b : Option Rat) : Option Rat :=
  match a, b with
  | some x, some y => some (x - y)
  | _, _ => none

/-- Combination step of a NaN-skipping column maximum. -/
def maxCell : Option Rat → Option Rat → Option Rat
  | some x, some y => some (max x y)
  | some x, none => some x
  | none, m => m

/-- Maximum of a numeric column as pandas Series.max computes it: NaN
cells are skipped, and the maximum of an all-NaN column is NaN. -/
def colMax : List (Option Rat) → Option Rat
  | [] => none
  | c :: cs => maxCell c (colMax cs)

/-- The derived metrics of the dashboard body (Energy.py lines 169-242):
latest snapshot, deltas of the last two rows, column maxima and cost. -/
structure Metrics where
  latestVoltage : Option Rat
  latestCurrent : Option Rat
  latestPower : Option Rat
  latestEnergy : Option Rat
  powerDelta : Option Rat
  energyDelta : Option Rat
  totalEnergy : Option Rat
  maxPower : Option Rat
  totalCost : Option Rat
deriving DecidableEq, Repr

/-- What the main body renders: the waiting-for-data message or the
full metrics dashboard. -/
inductive Render where
  | waiting
  | dashboard (m : Metrics)
deriving DecidableEq, Repr

/-- The metrics computed from a table with its last row and its
second-to-last row in hand (Energy.py lines 169-242). -/
def computeMetrics (df : Table) (last : Row) (prev : Row) (cost : Rat) :
    Metrics :=
  let totE := colMax (df.rows.map Row.energy)
  { latestVoltage := last.voltage
    latestCurrent := last.current
    latestPower := last.power
    latestEnergy := last.energy
    powerDelta := optSub last.power prev.power
    energyDelta := optSub last.energy prev.energy
    totalEnergy := totE
    maxPower := colMax (df.rows.map Row.power)
    totalCost := totE.map (fun e => e * cost) }

/-- The main body of the dashboard (Energy.py lines 164-242): with an
empty table or fewer than 2 rows only the waiting message is shown,
otherwise the metrics are computed from the last two rows. -/
def renderMain (df : Table) (cost : Rat) : Render :=
  if df.rows.isEmpty || df.rows.length < 2 then .waiting
  else
    match df.rows.getLast?, df.rows.dropLast.getLast? with
    | some last, some prev => .dashboard (computeMetrics df last prev cost)
    | _, _ => .waiting

/-- One entry of the st.cache_data cache: the argument it is keyed by,
the time it was stored, and the cached return value. -/
structure CacheEntry where
  arg : Nat
  storedAt : Nat
  value : Bool × Table

/-- The st.cache_data store for load_data. -/
abbrev Cache := List CacheEntry

/-- The cache lifetime of load_data: the decorator is written with the
literal ttl=5 (Energy.py line 56), evaluated once at definition time. -/
def cacheTTL : Nat := 5

/-- Cache lookup: an entry serves the call when its key equals the
argument and it is younger than the fixed lifetime. -/
def lookupCache (c : Cache) (arg now : Nat) : Option (Bool × Table) :=
  (c.find? (fun e => e.arg == arg && now < e.storedAt + cacheTTL)).map
    (fun e => e.value)

/-- load_data as called through st.cache_data (Energy.py lines 56-57 and
162): a fresh-enough entry for the same argument is served without
touching the file, otherwise the loader runs and the result is stored.
The final Bool is true exactly when the file was read. -/
def cachedLoadData (pT : String → Option Nat) (pN : String → Option Rat)
    (c : Cache) (arg now : Nat) (file : FileState) :
    (Bool × Table) × Cache × Bool :=
  match lookupCache c arg now with
  | some v => (v, c, false)
  | none =>
    let v := load_data pT pN file
    (v, ⟨arg, now, v⟩ :: c, true)

/-- The rational 3/2, written as an explicit fraction so that concrete
tables evaluate inside the kernel. -/
def r15 : Rat := ⟨3, 2, by decide, by decide⟩

/-- The rational 6/5, written as an explicit fraction so that concrete
tables evaluate inside the kernel. -/
def r12 : Rat := ⟨6, 5, by decide, by decide⟩

/-- A concrete instance of the timestamp parser for evaluating the
pipeline on sample files: t1, t2, t3 parse, anything else is NaT. -/
def dTs (s : String) : Option Nat :=
  if s = "t1" then some 1
  else if s = "t2" then some 2
  else if s = "t3" then some 3
  else none

/-- A concrete instance of the numeric parser for evaluating the
pipeline on sample files; unknown text such as abc is NaN. -/
def dNum (s : String) : Option Rat :=
  if s = "1.0" then some 1
  else if s = "1.5" then some r15
  else if s = "1.2" then some r12
  else if s = "100.0" then some 100
  else if s = "110.0" then some 110
  else if s = "120.0" then some 120
  else if s = "230.0" then some 230
  else none

/-- A sample raw file: three parseable timestamps in order, one row with
an unparseable timestamp, one row with a non-numeric voltage cell, and
the energy column reading 1.0, 1.5, then 1.2. -/
def demoRaws : List RawRow :=
  [⟨"t1", "230.0", "1.0", "100.0", "1.0", "OK"⟩,
   ⟨"t2", "abc", "1.0", "120.0", "1.5", "OK"⟩,
   ⟨"bad", "230.0", "1.0", "110.0", "1.2", "OK"⟩,
   ⟨"t3", "230.0", "1.0", "110.0", "1.2", "OK"⟩]

/-- The table the loader produces from the sample file. -/
def demoTable : Table :=
  (load_data dTs dNum (.present (.ok demoRaws))).2

/-- The total-energy metric of a render result, none when waiting. -/
def renderTotalEnergy : Render → Option Rat
  | .waiting => none
  | .dashboard m => m.totalEnergy

theorem coerceFrom_append (pT : String → Option Nat)
    (pN : String → Option Rat) (a b : List RawRow) (i : Nat) :
    coerceFrom pT pN i (a ++ b) =
      coerceFrom pT pN i a ++ coerceFrom pT pN (i + a.length) b := by
  induction a generalizing i with
  | nil => simp [coerceFrom]
  | cons r rs ih =>
    have harith : i + 1 + rs.length = i + (rs.length + 1) := by omega
    simp only [List.cons_append, coerceFrom, List.length_cons, List.append_eq]
    cases pT r.ts with
    | none => dsimp only; rw [ih, harith]
    | some t => dsimp only; rw [ih, harith]; rfl

theorem mem_coerceFrom (pT : String → Option Nat) (pN : String → Option Rat)
    {i : Nat} {raws : List RawRow} {r : Row}
    (h : r ∈ coerceFrom pT pN i raws) :
    ∃ raw ∈ raws, pT raw.ts = some r.ts := by
  induction raws generalizing i with
  | nil => simp [coerceFrom] at h
  | cons x xs ih =>
    simp only [coerceFrom] at h
    cases hx : pT x.ts with
    | none =>
      rw [hx] at h
      obtain ⟨raw, hm, hp⟩ := ih h
      exact ⟨raw, List.mem_cons_of_mem _ hm, hp⟩
    | some t =>
      rw [hx] at h
      rcases List.mem_cons.mp h with he | he
      · exact ⟨x, List.mem_cons_self _ _, by rw [he, hx]⟩
      · obtain ⟨raw, hm, hp⟩ := ih he
        exact ⟨raw, List.mem_cons_of_mem _ hm, hp⟩

theorem coerceFrom_ts_surj (pT : String → Option Nat)
    (pN : String → Option Rat) {raws : List RawRow} {raw : RawRow}
    (hm : raw ∈ raws) {t : Nat} (hp : pT raw.ts = some t) (i : Nat) :
    ∃ r ∈ coerceFrom pT pN i raws, r.ts = t := by
  induction raws generalizing i with
  | nil => simp at hm
  | cons x xs ih =>
    simp only [coerceFrom]
    rcases List.mem_cons.mp hm with he | he
    · subst he
      rw [hp]
      exact ⟨_, List.mem_cons_self _ _, rfl⟩
    · obtain ⟨r, hr, hrts⟩ := ih he (i + 1)
      cases pT x.ts with
      | none => exact ⟨r, hr, hrts⟩
      | some u => exact ⟨r, List.mem_cons_of_mem _ hr, hrts⟩

theorem dropDup_subset {l : List Row} {r : Row}
    (h : r ∈ dropDupKeepLast l) : r ∈ l := by
  induction l with
  | nil => simp [dropDupKeepLast] at h
  | cons x xs ih =>
    simp only [dropDupKeepLast] at h
    by_cases hd : (xs.any fun y => y.ts == x.ts) = true
    · rw [if_pos hd] at h
      exact List.mem_cons_of_mem _ (ih h)
    · rw [if_neg hd] at h
      rcases List.mem_cons.mp h with he | he
      · exact he ▸ List.mem_cons_self _ _
      · exact List.mem_cons_of_mem _ (ih he)

theorem dropDup_ts_surj {l : List Row} :
    ∀ r ∈ l, ∃ x ∈ dropDupKeepLast l, x.ts = r.ts := by
  induction l with
  | nil => intro r h; simp at h
  | cons a as ih =>
    intro r h
    simp only [dropDupKeepLast]
    by_cases hd : (as.any fun y => y.ts == a.ts) = true
    · rw [if_pos hd]
      rcases List.mem_cons.mp h with he | he
      · obtain ⟨y, hy, hyts⟩ := List.any_eq_true.mp hd
        obtain ⟨x, hx, hxts⟩ := ih y hy
        exact ⟨x, hx, by rw [hxts, beq_iff_eq.mp hyts, he]⟩
      · exact ih r he
    · rw [if_neg hd]
      rcases List.mem_cons.mp h with he | he
      · exact ⟨a, List.mem_cons_self _ _, by rw [he]⟩
      · obtain ⟨x, hx, hxts⟩ := ih r he
        exact ⟨x, List.mem_cons_of_mem _ hx, hxts⟩

theorem dropDup_ts_nodup (l : List Row) :
    ((dropDupKeepLast l).map Row.ts).Nodup := by
  induction l with
  | nil => simp [dropDupKeepLast]
  | cons a as ih =>
    simp only [dropDupKeepLast]
    by_cases hd : (as.any fun y => y.ts == a.ts) = true
    · rw [if_pos hd]; exact ih
    · rw [if_neg hd]
      simp only [List.map_cons, List.nodup_cons]
      refine ⟨fun hmem => ?_, ih⟩
      obtain ⟨x, hx, hxts⟩ := List.mem_map.mp hmem
      exact hd (List.any_eq_true.mpr
        ⟨x, dropDup_subset hx, beq_iff_eq.mpr hxts⟩)

theorem dropDup_split {l : List Row} {r : Row} (h : r ∈ dropDupKeepLast l) :
    ∃ l1 l2, l = l1 ++ r :: l2 ∧ ∀ x ∈ l2, x.ts ≠ r.ts := by
  induction l with
  | nil => simp [dropDupKeepLast] at h
  | cons a as ih =>
    simp only [dropDupKeepLast] at h
    by_cases hd : (as.any fun y => y.ts == a.ts) = true
    · rw [if_pos hd] at h
      obtain ⟨l1, l2, heq, hne⟩ := ih h
      exact ⟨a :: l1, l2, by rw [heq]; rfl, hne⟩
    · rw [if_neg hd] at h
      rcases List.mem_cons.mp h with he | he
      · refine ⟨[], as, by rw [he]; rfl, fun x hx hts => ?_⟩
        exact hd (List.any_eq_true.mpr
          ⟨x, hx, beq_iff_eq.mpr (by rw [hts, he])⟩)
      · obtain ⟨l1, l2, heq, hne⟩ := ih he
        exact ⟨a :: l1, l2, by rw [heq]; rfl, hne⟩

theorem dropDup_of_split {l1 l2 : List Row} {r : Row}
    (hne : ∀ x ∈ l2, x.ts ≠ r.ts) :
    r ∈ dropDupKeepLast (l1 ++ r :: l2) := by
  induction l1 with
  | nil =>
    simp only [List.nil_append, dropDupKeepLast]
    have hd : ¬ ((l2.any fun y => y.ts == r.ts) = true) := by
      intro hc
      obtain ⟨y, hy, hyts⟩ := List.any_eq_true.mp hc
      exact hne y hy (beq_iff_eq.mp hyts)
    rw [if_neg hd]
    exact List.mem_cons_self _ _
  | cons a as ih =>
    simp only [List.cons_append, dropDupKeepLast, List.append_eq]
    by_cases hd : (((as ++ r :: l2).any fun y => y.ts == a.ts) = true)
    · rw [if_pos hd]; exact ih
    · rw [if_neg hd]; exact List.mem_cons_of_mem _ ih

theorem sortByTs_perm (l : List Row) : (sortByTs l).Perm l :=
  List.perm_insertionSort rowLe l

theorem sortByTs_sorted (l : List Row) : List.Sorted rowLe (sortByTs l) :=
  List.sorted_insertionSort rowLe l

theorem resetIndexFrom_map_ts (i : Nat) (l : List Row) :
    (resetIndexFrom i l).map Row.ts = l.map Row.ts := by
  induction l generalizing i with
  | nil => rfl
  | cons a as ih => simp [resetIndexFrom, ih]

theorem resetIndexFrom_length (i : Nat) (l : List Row) :
    (resetIndexFrom i l).length = l.length := by
  induction l generalizing i with
  | nil => rfl
  | cons a as ih => simp [resetIndexFrom, ih]

theorem resetIndexFrom_map_idx (i : Nat) (l : List Row) :
    (resetIndexFrom i l).map Row.idx = List.range' i l.length := by
  induction l generalizing i with
  | nil => rfl
  | cons a as ih => simp [resetIndexFrom, ih, List.range']

theorem mem_resetIndexFrom {i : Nat} {l : List Row} {row : Row}
    (h : row ∈ resetIndexFrom i l) :
    ∃ c ∈ l, row = { c with idx := row.idx } := by
  induction l generalizing i with
  | nil => simp [resetIndexFrom] at h
  | cons a as ih =>
    simp only [resetIndexFrom] at h
    rcases List.mem_cons.mp h with he | he
    · exact ⟨a, List.mem_cons_self _ _, by rw [he]⟩
    · obtain ⟨c, hc, hrow⟩ := ih he
      exact ⟨c, List.mem_cons_of_mem _ hc, hrow⟩

theorem resetIndexFrom_mem_of_mem {l : List Row} {c : Row} (h : c ∈ l)
    (i : Nat) : ∃ j, ({ c with idx := j }) ∈ resetIndexFrom i l := by
  induction l generalizing i with
  | nil => simp at h
  | cons a as ih =>
    simp only [resetIndexFrom]
    rcases List.mem_cons.mp h with he | he
    · exact ⟨i, by rw [he]; exact List.mem_cons_self _ _⟩
    · obtain ⟨j, hj⟩ := ih he (i + 1)
      exact ⟨j, List.mem_cons_of_mem _ hj⟩

theorem colMax_eq_none {l : List (Option Rat)} (h : colMax l = none) :
    ∀ x : Rat, some x ∉ l := by
  induction l with
  | nil => simp
  | cons c cs ih =>
    intro x hx
    cases c with
    | some w =>
      cases hcs : colMax cs with
      | none => simp [colMax, maxCell, hcs] at h
      | some y => simp [colMax, maxCell, hcs] at h
    | none =>
      have h2 : colMax cs = none := by simpa [colMax, maxCell] using h
      rcases List.mem_cons.mp hx with he | he
      · cases he
      · exact ih h2 x he

theorem colMax_spec {l : List (Option Rat)} {v : Rat}
    (h : colMax l = some v) :
    some v ∈ l ∧ ∀ x : Rat, some x ∈ l → x ≤ v := by
  induction l generalizing v with
  | nil => cases h
  | cons c cs ih =>
    cases c with
    | none =>
      have h2 : colMax cs = some v := by simpa [colMax, maxCell] using h
      obtain ⟨hmem, hub⟩ := ih h2
      refine ⟨List.mem_cons_of_mem _ hmem, fun x hx => ?_⟩
      rcases List.mem_cons.mp hx with he | he
      · cases he
      · exact hub x he
    | some w =>
      cases hcs : colMax cs with
      | none =>
        have hv : w = v := by
          have := h
          simp [colMax, maxCell, hcs] at this
          exact this
        subst hv
        refine ⟨List.mem_cons_self _ _, fun x hx => ?_⟩
        rcases List.mem_cons.mp hx with he | he
        · exact le_of_eq (Option.some_injective _ he)
        · exact absurd he (colMax_eq_none hcs x)
      | some y =>
        have hv : max w y = v := by
          have := h
          simp [colMax, maxCell, hcs] at this
          exact this
        obtain ⟨hmem, hub⟩ := ih hcs
        constructor
        · rcases max_choice w y with hm | hm
          · have hw : v = w := by rw [← hv, hm]
            rw [hw]
            exact List.mem_cons_self _ _
          · have hy : v = y := by rw [← hv, hm]
            rw [hy]
            exact List.mem_cons_of_mem _ hmem
        · intro x hx
          rcases List.mem_cons.mp hx with he | he
          · have : x = w := Option.some_injective _ he
            exact this ▸ hv ▸ le_max_left w y
          · exact le_trans (hub x he) (hv ▸ le_max_right w y)

/-- C5: if the input CSV file is absent, the loader returns an empty
table with exactly the six-column schema Timestamp, Voltage (V),
Current (A), Power (W), Energy (kWh), Status, with no rows and with no
error surfaced. -/
theorem c5_absent_file_yields_empty_schema (pT : String → Option Nat)
    (pN : String → Option Rat) :
    load_data pT pN .absent = (false, emptySchemaTable) ∧
    emptySchemaTable.columns =
      ["Timestamp", "Voltage (V)", "Current (A)", "Power (W)",
       "Energy (kWh)", "Status"] ∧
    emptySchemaTable.rows = [] :=
  ⟨rfl, rfl, rfl⟩

/-- C6: on a whole-file parse failure the loader surfaces a user-visible
error and returns the empty schema table, and on every possible file
state it returns a result (the error flag or the empty fallback), never
an unhandled failure. -/
theorem c6_parse_failure_caught (pT : String → Option Nat)
    (pN : String → Option Rat) (msg : String) :
    load_data pT pN (.present (.error msg)) = (true, emptySchemaTable) ∧
    ∀ file : FileState,
      (load_data pT pN file).2 = emptySchemaTable ∨
      (load_data pT pN file).1 = false := by
  refine ⟨rfl, fun file => ?_⟩
  match file with
  | .absent => exact Or.inl rfl
  | .present (.error e) => exact Or.inl rfl
  | .present (.ok raws) => exact Or.inr rfl

/-- C10: control_device_api validates nothing: for every input string,
also ones that are neither ON nor OFF, it stores that exact string as
the device status, updates the last-call time to the current clock, and
returns True, so the False branch is unreachable. -/
theorem c10_api_accepts_any_string (s : Session) (ns : String) (now : Nat) :
    control_device_api s ns now =
      (true, { device_status := ns, last_api_call := now }) :=
  rfl

/-- C3: whenever the clock has advanced past the stored last-call time,
the toggle flips OFF to ON and ON to OFF, records a strictly later
last-change timestamp, and reports success. -/
theorem c3_toggle_flips_and_succeeds (s : Session) (now : Nat)
    (h : s.last_api_call < now) :
    ((s.device_status = "OFF" →
        (handle_toggle s now).1.device_status = "ON") ∧
     (s.device_status = "ON" →
        (handle_toggle s now).1.device_status = "OFF")) ∧
    s.last_api_call < (handle_toggle s now).1.last_api_call ∧
    (handle_toggle s now).2 = true := by
  by_cases hon : s.device_status = "ON"
  · refine ⟨⟨fun hoff => ?_, fun _ => ?_⟩, ?_, rfl⟩
    · rw [hon] at hoff; exact absurd hoff (by decide)
    · simp [handle_toggle, control_device_api, hon]
    · simpa [handle_toggle, control_device_api] using h
  · refine ⟨⟨fun _ => ?_, fun hon2 => absurd hon2 hon⟩, ?_, rfl⟩
    · simp [handle_toggle, control_device_api, hon]
    · simpa [handle_toggle, control_device_api] using h

/-- Witness for C3 at the concrete state OFF with clock 0, toggled at
clock 1. -/
theorem c3_toggle_flips_and_succeeds_witness :
    (handle_toggle ⟨"OFF", 0⟩ 1).1.device_status = "ON" ∧
    (⟨"OFF", 0⟩ : Session).last_api_call <
      (handle_toggle ⟨"OFF", 0⟩ 1).1.last_api_call ∧
    (handle_toggle ⟨"OFF", 0⟩ 1).2 = true :=
  ⟨(c3_toggle_flips_and_succeeds ⟨"OFF", 0⟩ 1 (by decide)).1.1 rfl,
   (c3_toggle_flips_and_succeeds ⟨"OFF", 0⟩ 1 (by decide)).2.1,
   (c3_toggle_flips_and_succeeds ⟨"OFF", 0⟩ 1 (by decide)).2.2⟩

/-- C4: with fewer than 2 rows, whatever the unit price, the main body
renders only the waiting-for-data message and computes no metrics. -/
theorem c4_insufficient_data_waits (df : Table) (cost : Rat)
    (h : df.rows.length < 2) :
    renderMain df cost = .waiting := by
  unfold renderMain
  rw [if_pos]
  simp [h]

/-- Witness for C4 at the empty table and at a one-row table. -/
theorem c4_insufficient_data_waits_witness :
    renderMain emptySchemaTable 1 = .waiting ∧
    renderMain ⟨schemaCols, [⟨0, 1, some 230, some 1, some 100, some 1, "OK"⟩]⟩
        1 = .waiting :=
  ⟨c4_insufficient_data_waits emptySchemaTable 1 (by decide),
   c4_insufficient_data_waits
     ⟨schemaCols, [⟨0, 1, some 230, some 1, some 100, some 1, "OK"⟩]⟩ 1
     (by decide)⟩

/-- C1: with at least 2 rows the dashboard is rendered and the reported
total accumulated energy is the maximum of the Energy (kWh) column: a
value attained by some row and an upper bound of every present energy
cell, rather than the last row's value. -/
theorem c1_total_energy_is_column_max (df : Table) (cost : Rat)
    (h : 2 ≤ df.rows.length) :
    ∃ m, renderMain df cost = .dashboard m ∧
      m.totalEnergy = colMax (df.rows.map Row.energy) ∧
      ∀ v, m.totalEnergy = some v →
        (∃ r ∈ df.rows, r.energy = some v) ∧
        ∀ r ∈ df.rows, ∀ e, r.energy = some e → e ≤ v := by
  have hne : df.rows ≠ [] := by
    intro he
    rw [he] at h
    simp at h
  have hne2 : df.rows.dropLast ≠ [] := by
    intro he
    have hlen := congrArg List.length he
    simp only [List.length_dropLast, List.length_nil] at hlen
    omega
  obtain ⟨last, hlast⟩ :=
    Option.isSome_iff_exists.mp (List.getLast?_isSome.mpr hne)
  obtain ⟨prev, hprev⟩ :=
    Option.isSome_iff_exists.mp (List.getLast?_isSome.mpr hne2)
  refine ⟨computeMetrics df last prev cost, ?_, rfl, ?_⟩
  · have h2 : ¬ (df.rows.length < 2) := by omega
    unfold renderMain
    rw [hlast, hprev]
    simp [List.isEmpty_iff, hne, h2]
  · intro v hv
    have hv2 : colMax (df.rows.map Row.energy) = some v := hv
    obtain ⟨hmem, hub⟩ := colMax_spec hv2
    constructor
    · obtain ⟨r, hr, hre⟩ := List.mem_map.mp hmem
      exact ⟨r, hr, hre⟩
    · intro r hr e hre
      exact hub e (List.mem_map.mpr ⟨r, hr, hre⟩)

/-- Witness for C1 on the loaded sample table, whose energy column in
timestamp order reads 1.0, 1.5 then 1.2: the reported total accumulated
energy is 1.5 (the maximum), and the last row holds the different value
1.2. -/
theorem c1_total_energy_is_column_max_witness :
    2 ≤ demoTable.rows.length ∧
    (∃ m, renderMain demoTable 1 = .dashboard m ∧
      m.totalEnergy = colMax (demoTable.rows.map Row.energy) ∧
      ∀ v, m.totalEnergy = some v →
        (∃ r ∈ demoTable.rows, r.energy = some v) ∧
        ∀ r ∈ demoTable.rows, ∀ e, r.energy = some e → e ≤ v) ∧
    demoTable.rows.map Row.energy = [some 1, some r15, some r12] ∧
    renderTotalEnergy (renderMain demoTable 1) = some r15 ∧
    demoTable.rows.getLast?.map Row.energy = some (some r12) ∧
    r15 ≠ r12 :=
  ⟨by decide, c1_total_energy_is_column_max demoTable 1 (by decide),
   by decide, by decide, by decide, by decide⟩

/-- C7: the loader drops exactly the rows whose timestamp cell fails to
parse: loading succeeds with no error, every row of the result stems
from a raw row with a parseable timestamp, and every raw row with a
parseable timestamp still has its timestamp represented in the result. -/
theorem c7_unparseable_timestamps_dropped (pT : String → Option Nat)
    (pN : String → Option Rat) (raws : List RawRow) :
    (load_data pT pN (.present (.ok raws))).1 = false ∧
    (∀ row ∈ (load_data pT pN (.present (.ok raws))).2.rows,
       ∃ raw ∈ raws, pT raw.ts = some row.ts) ∧
    (∀ raw ∈ raws, ∀ t, pT raw.ts = some t →
       ∃ row ∈ (load_data pT pN (.present (.ok raws))).2.rows,
         row.ts = t) := by
  refine ⟨rfl, ?_, ?_⟩
  · intro row hrow
    have hrow2 : row ∈ resetIndexFrom 0
        (sortByTs (dropDupKeepLast (parseAndCoerce pT pN raws))) := hrow
    obtain ⟨c, hc, hrc⟩ := mem_resetIndexFrom hrow2
    have hc2 : c ∈ dropDupKeepLast (parseAndCoerce pT pN raws) :=
      (sortByTs_perm _).subset hc
    obtain ⟨raw, hm, hp⟩ := mem_coerceFrom pT pN (dropDup_subset hc2)
    refine ⟨raw, hm, ?_⟩
    rw [hp, hrc]
  · intro raw hm t hp
    obtain ⟨r, hr, hrts⟩ := coerceFrom_ts_surj pT pN hm hp 0
    obtain ⟨x, hx, hxts⟩ := dropDup_ts_surj r hr
    have hx2 : x ∈ sortByTs (dropDupKeepLast (parseAndCoerce pT pN raws)) :=
      ((sortByTs_perm _).symm.subset) hx
    obtain ⟨j, hj⟩ := resetIndexFrom_mem_of_mem hx2 0
    exact ⟨{ x with idx := j }, hj, by rw [show ({ x with idx := j } : Row).ts = x.ts from rfl, hxts, hrts]⟩

/-- C8: a raw row whose timestamp parses and is the last of its
timestamp in file order is retained by the loader with each of its four
numeric cells coerced independently, so a non-numeric cell (one the
numeric parser sends to none) becomes a missing value for that cell
only and the row itself survives. -/
theorem c8_bad_cell_nulled_row_kept (pT : String → Option Nat)
    (pN : String → Option Rat) (a : List RawRow) (r : RawRow)
    (b : List RawRow) (t : Nat) (hts : pT r.ts = some t)
    (hlast : ∀ x ∈ b, pT x.ts ≠ some t) :
    ∃ row ∈ (load_data pT pN (.present (.ok (a ++ r :: b)))).2.rows,
      row.ts = t ∧ row.voltage = pN r.voltage ∧
      row.current = pN r.current ∧ row.power = pN r.power ∧
      row.energy = pN r.energy ∧ row.status = r.status := by
  have hsplit : parseAndCoerce pT pN (a ++ r :: b) =
      coerceFrom pT pN 0 a ++
        (⟨a.length, t, pN r.voltage, pN r.current, pN r.power,
          pN r.energy, r.status⟩ : Row) ::
          coerceFrom pT pN (a.length + 1) b := by
    unfold parseAndCoerce
    rw [coerceFrom_append]
    congr 1
    simp only [Nat.zero_add, coerceFrom, hts]
  have hB : ∀ x ∈ coerceFrom pT pN (a.length + 1) b,
      x.ts ≠ (⟨a.length, t, pN r.voltage, pN r.current, pN r.power,
        pN r.energy, r.status⟩ : Row).ts := by
    intro x hx hts2
    obtain ⟨raw, hm, hp⟩ := mem_coerceFrom pT pN hx
    exact hlast raw hm (by rw [hp, hts2])
  have hdedup : (⟨a.length, t, pN r.voltage, pN r.current, pN r.power,
      pN r.energy, r.status⟩ : Row) ∈
      dropDupKeepLast (parseAndCoerce pT pN (a ++ r :: b)) := by
    rw [hsplit]
    exact dropDup_of_split hB
  have hsort : (⟨a.length, t, pN r.voltage, pN r.current, pN r.power,
      pN r.energy, r.status⟩ : Row) ∈
      sortByTs (dropDupKeepLast (parseAndCoerce pT pN (a ++ r :: b))) :=
    ((sortByTs_perm _).symm.subset) hdedup
  obtain ⟨j, hj⟩ := resetIndexFrom_mem_of_mem hsort 0
  exact ⟨_, hj, rfl, rfl, rfl, rfl, rfl, rfl⟩

/-- Witness for C8 on the sample file: the row with timestamp t2 and
the non-numeric voltage cell abc is retained, with its voltage missing
and its other numeric cells intact. -/
theorem c8_bad_cell_nulled_row_kept_witness :
    dNum "abc" = none ∧
    (∃ row ∈ (load_data dTs dNum (.present (.ok demoRaws))).2.rows,
      row.ts = 2 ∧ row.voltage = dNum "abc" ∧
      row.current = dNum "1.0" ∧ row.power = dNum "120.0" ∧
      row.energy = dNum "1.5" ∧ row.status = "OK") :=
  ⟨rfl,
   c8_bad_cell_nulled_row_kept dTs dNum
     [⟨"t1", "230.0", "1.0", "100.0", "1.0", "OK"⟩]
     ⟨"t2", "abc", "1.0", "120.0", "1.5", "OK"⟩
     [⟨"bad", "230.0", "1.0", "110.0", "1.2", "OK"⟩,
      ⟨"t3", "230.0", "1.0", "110.0", "1.2", "OK"⟩]
     2 (by decide) (by decide)⟩

/-- C9: every table the loader returns has pairwise distinct timestamps,
rows sorted ascending by timestamp, a contiguous index starting at 0,
and each surviving row is the last row of its timestamp in original
file order among the parsed rows. -/
theorem c9_table_invariants (pT : String → Option Nat)
    (pN : String → Option Rat) (raws : List RawRow) :
    ((load_data pT pN (.present (.ok raws))).2.rows.map Row.ts).Nodup ∧
    ((load_data pT pN (.present (.ok raws))).2.rows.map Row.ts).Pairwise
      (· ≤ ·) ∧
    (load_data pT pN (.present (.ok raws))).2.rows.map Row.idx =
      List.range (load_data pT pN (.present (.ok raws))).2.rows.length ∧
    ∀ row ∈ (load_data pT pN (.present (.ok raws))).2.rows,
      ∃ l1 c l2, parseAndCoerce pT pN raws = l1 ++ c :: l2 ∧
        row.stripIdx = c.stripIdx ∧ ∀ x ∈ l2, x.ts ≠ row.ts := by
  have hrows : (load_data pT pN (.present (.ok raws))).2.rows =
      resetIndexFrom 0 (sortByTs (dropDupKeepLast
        (parseAndCoerce pT pN raws))) := rfl
  have hmapts : (load_data pT pN (.present (.ok raws))).2.rows.map Row.ts =
      (sortByTs (dropDupKeepLast (parseAndCoerce pT pN raws))).map Row.ts := by
    rw [hrows, resetIndexFrom_map_ts]
  refine ⟨?_, ?_, ?_, ?_⟩
  · rw [hmapts]
    exact ((sortByTs_perm _).map Row.ts).nodup_iff.mpr
      (dropDup_ts_nodup (parseAndCoerce pT pN raws))
  · rw [hmapts]
    exact List.pairwise_map.mpr
      ((sortByTs_sorted (dropDupKeepLast (parseAndCoerce pT pN raws))).imp
        (fun h => h))
  · rw [hrows, resetIndexFrom_map_idx, resetIndexFrom_length,
      List.range_eq_range']
  · intro row hrow
    rw [hrows] at hrow
    obtain ⟨c, hc, hrc⟩ := mem_resetIndexFrom hrow
    have hc2 : c ∈ dropDupKeepLast (parseAndCoerce pT pN raws) :=
      (sortByTs_perm _).subset hc
    obtain ⟨l1, l2, heq, hne⟩ := dropDup_split hc2
    refine ⟨l1, c, l2, heq, by rw [hrc]; rfl, fun x hx => ?_⟩
    rw [hrc]
    exact hne x hx

/-- C2 fails on the code: the cache lifetime is the fixed constant 5,
not the configured duration.  Loading with duration 30 at clock 0 and
again at clock 10 stays inside the 30-second window the claim promises,
yet the second call reads the file again because the entry stored at 0
is already older than the fixed 5-second lifetime. -/
theorem c2_fixed_ttl_forces_reread :
    (cachedLoadData dTs dNum
        (cachedLoadData dTs dNum [] 30 0 (.present (.ok []))).2.1
        30 10 (.present (.ok []))).2.2 = true ∧
    10 < 30 ∧ cacheTTL = 5 := by
  refine ⟨?_, by decide, rfl⟩
  rfl
